import Mathlib

/-!
Verification of the expense-tracker state manager (src/src/App.tsx).

The data model and every operation below are transcribed from the React
component `App`: pure state-transition functions replace the `setState`
calls, and the JS object holding per-month records becomes an association
list that preserves key insertion order, exactly as JS objects do.
JS numbers are modelled as `Int` (the claims under check are structural
and never depend on float rounding or NaN propagation).
-/

namespace ExpenseTracker

/-- `type Expense = { id: number; title: string; amount: number; category: string }` -/
structure Expense where
  id : Int
  title : String
  amount : Int
  category : String
deriving DecidableEq

/-- `type MonthData = { income: number; expenses: Expense[] }` -/
structure MonthData where
  income : Int
  expenses : List Expense
deriving DecidableEq

/-- `type Data = Record<string, MonthData>`: a JS object, i.e. an ordered
association list of month keys. -/
abbrev Data := List (String × MonthData)

/-- Key lookup `data[m]` on a JS object: first matching key. -/
def getMonth : Data → String → Option MonthData
  | [], _ => none
  | (k, v) :: rest, m => if k = m then some v else getMonth rest m

/-- The default month record `{ income: 0, expenses: [] }`. -/
def defaultMonth : MonthData := { income := 0, expenses := [] }

/-- JS spread update `{ ...prev, [m]: v }`: an existing key keeps its
position and gets the new value, a fresh key is appended at the end. -/
def setMonth : Data → String → MonthData → Data
  | [], m, v => [(m, v)]
  | (k, w) :: rest, m, v =>
    if k = m then (m, v) :: rest else (k, w) :: setMonth rest m v

/-- `data[selectedMonth]?.expenses || []` -/
def monthExpenses (d : Data) (m : String) : List Expense :=
  match getMonth d m with
  | some md => md.expenses
  | none => []

/-- `data[selectedMonth]?.income || 0` -/
def monthIncome (d : Data) (m : String) : Int :=
  match getMonth d m with
  | some md => md.income
  | none => 0

/-- The month-materialization effect: `if (!data[selectedMonth])
setData(prev => ({ ...prev, [selectedMonth]: { income: 0, expenses: [] } }))`. -/
def materializeMonth (d : Data) (m : String) : Data :=
  match getMonth d m with
  | some _ => d
  | none => setMonth d m defaultMonth

/-- `handleSaveIncome`: spread of the existing record (or the default) with
the `income` field replaced. -/
def handleSaveIncome (d : Data) (m : String) (incomeInput : Int) : Data :=
  setMonth d m { (getMonth d m).getD defaultMonth with income := incomeInput }

/-- `handleDeleteExpense`: keep the expenses whose id differs from the
deleted one; a missing month is replaced by the default record first. -/
def handleDeleteExpense (d : Data) (m : String) (i : Int) : Data :=
  let month := (getMonth d m).getD defaultMonth
  setMonth d m { month with expenses := month.expenses.filter (fun e => e.id ≠ i) }

/-- JS truthiness of `editingExpId : number | null`: both `null` and `0`
are falsy. -/
def truthyId : Option Int → Bool
  | none => false
  | some i => decide (i ≠ 0)

/-- Modelled from the spec: JS `String.prototype.trim`, a platform
primitive absent from the repository — drop whitespace from both ends. -/
def jsTrim (s : String) : String :=
  String.mk ((s.data.dropWhile Char.isWhitespace).reverse.dropWhile Char.isWhitespace).reverse

/-- Accumulator pass of the permissive decimal parse: `none` marks a
non-digit, the degenerate (NaN) outcome. -/
def decimalVal : List Char → Nat → Option Nat
  | [], acc => some acc
  | c :: cs, acc =>
    if c.isDigit then decimalVal cs (acc * 10 + (c.toNat - 48)) else none

/-- Modelled from the spec: the permissive `Number(string)` coercion, a
platform primitive absent from the repository. The claims never depend on
its value outside the signed-decimal fragment; inputs outside collapse to
0, standing for the degenerate value the spec's no-validation policy
tolerates. -/
def jsNumber (s : String) : Int :=
  match (jsTrim s).data with
  | [] => 0
  | c :: cs =>
    if c = '-' then
      match decimalVal cs 0 with
      | some n => -(n : Int)
      | none => 0
    else
      match decimalVal (c :: cs) 0 with
      | some n => (n : Int)
      | none => 0

/-- `handleAddOrUpdateExpense`: guard on the three form fields, then either
update-in-place by id (active edit target) or append a fresh expense whose
id is the current timestamp `now`. -/
def handleAddOrUpdateExpense (d : Data) (m : String)
    (expTitle expAmount expCategory : String)
    (editingExpId : Option Int) (now : Int) : Data :=
  if expTitle = "" ∨ expAmount = "" ∨ expCategory = "" then d
  else
    let month := (getMonth d m).getD defaultMonth
    if truthyId editingExpId then
      let eid := editingExpId.getD 0
      setMonth d m { month with expenses := month.expenses.map (fun e =>
        if e.id = eid then
          { e with title := expTitle, amount := jsNumber expAmount, category := expCategory }
        else e) }
    else
      setMonth d m { month with expenses := month.expenses ++
        [{ id := now, title := expTitle, amount := jsNumber expAmount, category := expCategory }] }

/-- `handleAddCategory`: trim, reject empty or already-present names,
otherwise append. -/
def handleAddCategory (categories : List String) (newCategoryInput : String) : List String :=
  let v := jsTrim newCategoryInput
  if v = "" then categories
  else if v ∈ categories then categories
  else categories ++ [v]

/-- JS truthiness of `editingCategory : string | null`: both `null` and
the empty string are falsy. -/
def truthyCat : Option String → Bool
  | none => false
  | some s => decide (s ≠ "")

/-- The CategoryList half of `handleSaveEditedCategory`:
`prev.map(c => c === editingCategory ? v : c)`. -/
def renameCats (categories : List String) (old v : String) : List String :=
  categories.map (fun c => if c = old then v else c)

/-- The Dataset half of `handleSaveEditedCategory`: rewrite the `category`
field of every expense of every month that equals the old name. -/
def renameData (d : Data) (old v : String) : Data :=
  d.map (fun p => (p.1, { p.2 with expenses := p.2.expenses.map (fun ex =>
    if ex.category = old then { ex with category := v } else ex) }))

/-- `handleSaveEditedCategory`: guard on the trimmed new name and the
active edit target, reject a name used by a different category, otherwise
rename in the list and cascade through the dataset. -/
def handleSaveEditedCategory (categories : List String) (d : Data)
    (newCategoryInput : String) (editingCategory : Option String) :
    List String × Data :=
  let v := jsTrim newCategoryInput
  if v = "" ∨ truthyCat editingCategory = false then (categories, d)
  else
    let old := editingCategory.getD ""
    if v ∈ categories ∧ v ≠ old then (categories, d)
    else (renameCats categories old v, renameData d old v)

/-- `Object.values(data).some(m => (m.expenses || []).some(e => e.category === cat))` -/
def categoryUsed (d : Data) (cat : String) : Bool :=
  d.any (fun p => p.2.expenses.any (fun e => e.category = cat))

/-- Result of `handleDeleteCategory`; `rejected` records the alert path.
The handler never writes `data`, so the Dataset is unchanged by
construction. -/
structure DeleteCategoryResult where
  categories : List String
  editingCategory : Option String
  rejected : Bool
deriving DecidableEq

/-- `handleDeleteCategory`: reject when any month has an expense with the
category, otherwise remove it and clear a matching edit target. -/
def handleDeleteCategory (categories : List String) (d : Data)
    (editingCategory : Option String) (cat : String) : DeleteCategoryResult :=
  if categoryUsed d cat then
    { categories := categories, editingCategory := editingCategory, rejected := true }
  else
    { categories := categories.filter (fun c => c ≠ cat)
      editingCategory := if editingCategory = some cat then none else editingCategory
      rejected := false }

/-- `const totalExpense = monthExpenses.reduce((s, e) => s + e.amount, 0)` -/
def totalExpense (d : Data) (m : String) : Int :=
  (monthExpenses d m).foldl (fun s e => s + e.amount) 0

/-- `const remaining = (data[selectedMonth]?.income || 0) - totalExpense` -/
def remaining (d : Data) (m : String) : Int :=
  monthIncome d m - totalExpense d m

/-- One pie-chart bucket `{ name, value }`. -/
structure Bucket where
  name : String
  value : Int
deriving DecidableEq

/-- `chartData`: one bucket per category, in category order, each value the
sum of the selected month's expenses in that category. -/
def chartData (categories : List String) (d : Data) (m : String) : List Bucket :=
  categories.map (fun cat =>
    { name := cat
      value := ((monthExpenses d m).filter (fun e => e.category = cat)).foldl
        (fun s e => s + e.amount) 0 })

/-! ### Basic lookup lemmas -/

theorem getMonth_setMonth_self (d : Data) (m : String) (v : MonthData) :
    getMonth (setMonth d m v) m = some v := by
  induction d with
  | nil => simp [setMonth, getMonth]
  | cons p rest ih =>
    obtain ⟨k, w⟩ := p
    by_cases h : k = m
    · simp [setMonth, getMonth, h]
    · simp [setMonth, getMonth, h, ih]

theorem getMonth_setMonth_other (d : Data) (m m' : String) (v : MonthData)
    (h : m' ≠ m) : getMonth (setMonth d m v) m' = getMonth d m' := by
  have hmm : ¬ m = m' := fun hh => h hh.symm
  induction d with
  | nil => simp [setMonth, getMonth, hmm]
  | cons p rest ih =>
    obtain ⟨k, w⟩ := p
    by_cases hk : k = m
    · subst hk
      simp [setMonth, getMonth, hmm]
    · simp [setMonth, getMonth, hk, ih]

theorem foldl_amount (l : List Expense) (a : Int) :
    l.foldl (fun s e => s + e.amount) a = a + (l.map Expense.amount).sum := by
  induction l generalizing a with
  | nil => simp
  | cons e es ih => simp [ih, add_assoc]

/-! ### C1: lazy, idempotent month materialization -/

/-- C1. Selecting a month with no Dataset entry materializes the default
record `{income := 0, expenses := []}` under that key, touches no other
month's record, and selecting a month whose record already exists leaves
the Dataset exactly as it was. -/
theorem month_materialization (d : Data) (m : String) :
    (getMonth d m = none →
      getMonth (materializeMonth d m) m = some defaultMonth ∧
      ∀ m', m' ≠ m → getMonth (materializeMonth d m) m' = getMonth d m') ∧
    (∀ md, getMonth d m = some md → materializeMonth d m = d) := by
  constructor
  · intro h
    constructor
    · simp [materializeMonth, h, getMonth_setMonth_self]
    · intro m' hm'
      simp [materializeMonth, h, getMonth_setMonth_other d m m' defaultMonth hm']
  · intro md h
    simp [materializeMonth, h]

/-- Witness for C1 at a concrete dataset: the key "2025-02" is absent, gets
the default record, and the existing "2025-01" record survives; a second
materialization of "2025-01" is the identity. -/
theorem month_materialization_witness :
    (getMonth [("2025-01", ⟨5, []⟩)] "2025-02" = none ∧
      getMonth (materializeMonth [("2025-01", ⟨5, []⟩)] "2025-02") "2025-02" =
        some defaultMonth ∧
      getMonth (materializeMonth [("2025-01", ⟨5, []⟩)] "2025-02") "2025-01" =
        getMonth [("2025-01", (⟨5, []⟩ : MonthData))] "2025-01") ∧
    materializeMonth [("2025-01", ⟨5, []⟩)] "2025-01" = [("2025-01", ⟨5, []⟩)] := by
  refine ⟨⟨by decide, ?_, ?_⟩, ?_⟩
  · exact ((month_materialization [("2025-01", ⟨5, []⟩)] "2025-02").1 (by decide)).1
  · exact ((month_materialization [("2025-01", ⟨5, []⟩)] "2025-02").1 (by decide)).2
      "2025-01" (by decide)
  · exact (month_materialization [("2025-01", ⟨5, []⟩)] "2025-01").2 ⟨5, []⟩ (by decide)

/-! ### C5: total and remaining -/

/-- C5. The derived total equals the sum of the selected month's expense
amounts and the derived remaining equals the month's income minus that
total; in particular the spec's example (income 5000, expenses 1200 and
300) gives total 1500 and remaining 3500. -/
theorem total_remaining_correct :
    (∀ (d : Data) (m : String),
      totalExpense d m = ((monthExpenses d m).map Expense.amount).sum ∧
      remaining d m = monthIncome d m - ((monthExpenses d m).map Expense.amount).sum) ∧
    (totalExpense [("2025-01", ⟨5000, [⟨1, "a", 1200, "Food"⟩, ⟨2, "b", 300, "Travel"⟩]⟩)]
        "2025-01" = 1500 ∧
      remaining [("2025-01", ⟨5000, [⟨1, "a", 1200, "Food"⟩, ⟨2, "b", 300, "Travel"⟩]⟩)]
        "2025-01" = 3500) := by
  refine ⟨fun d m => ⟨?_, ?_⟩, by decide, by decide⟩
  · simp [totalExpense, foldl_amount]
  · simp [remaining, totalExpense, foldl_amount]

/-! ### C9: the expense-form guard -/

/-- C9. `handleAddOrUpdateExpense` is a silent no-op on the Dataset
whenever the title, the amount, or the category is empty. -/
theorem submit_expense_guard (d : Data) (m : String)
    (expTitle expAmount expCategory : String)
    (editingExpId : Option Int) (now : Int)
    (h : expTitle = "" ∨ expAmount = "" ∨ expCategory = "") :
    handleAddOrUpdateExpense d m expTitle expAmount expCategory editingExpId now = d := by
  simp [handleAddOrUpdateExpense, h]

/-- Witness for C9: an empty amount leaves a concrete dataset untouched. -/
theorem submit_expense_guard_witness :
    handleAddOrUpdateExpense [("2025-01", ⟨7, []⟩)] "2025-01" "tea" "" "Food" none 42 =
      [("2025-01", ⟨7, []⟩)] :=
  submit_expense_guard _ _ _ _ _ _ _ (Or.inr (Or.inl rfl))

/-! ### C10: deleteExpense and setIncome materialize a missing month -/

/-- C10. On a month with no record, `handleDeleteExpense` materializes the
default record and `handleSaveIncome` materializes a record with the given
income and no expenses; both leave every other month's record unchanged. -/
theorem missing_month_materializes (d : Data) (m : String) (i income : Int)
    (h : getMonth d m = none) :
    getMonth (handleDeleteExpense d m i) m = some defaultMonth ∧
    getMonth (handleSaveIncome d m income) m = some { income := income, expenses := [] } ∧
    (∀ m', m' ≠ m →
      getMonth (handleDeleteExpense d m i) m' = getMonth d m' ∧
      getMonth (handleSaveIncome d m income) m' = getMonth d m') := by
  refine ⟨?_, ?_, ?_⟩
  · simp [handleDeleteExpense, h, getMonth_setMonth_self, defaultMonth]
  · simp [handleSaveIncome, h, getMonth_setMonth_self, defaultMonth]
  · intro m' hm'
    exact ⟨getMonth_setMonth_other _ _ _ _ hm', getMonth_setMonth_other _ _ _ _ hm'⟩

/-- Witness for C10 at a concrete dataset missing "2025-03". -/
theorem missing_month_materializes_witness :
    getMonth [("2025-01", ⟨9, []⟩)] "2025-03" = none ∧
    getMonth (handleDeleteExpense [("2025-01", ⟨9, []⟩)] "2025-03" 5) "2025-03" =
      some defaultMonth ∧
    getMonth (handleSaveIncome [("2025-01", ⟨9, []⟩)] "2025-03" 1234) "2025-03" =
      some { income := 1234, expenses := [] } ∧
    getMonth (handleSaveIncome [("2025-01", ⟨9, []⟩)] "2025-03" 1234) "2025-01" =
      getMonth [("2025-01", (⟨9, []⟩ : MonthData))] "2025-01" := by
  have h := missing_month_materializes [("2025-01", ⟨9, []⟩)] "2025-03" 5 1234 (by decide)
  exact ⟨by decide, h.1, h.2.1, (h.2.2 "2025-01" (by decide)).2⟩

/-! ### C4: chart buckets -/

/-- C4. The chart has exactly one bucket per CategoryList entry, in
CategoryList order; each bucket's value is the sum of the amounts of the
selected month's expenses in that category, and a category with no
matching expense still yields a bucket, with value 0. -/
theorem chart_buckets (categories : List String) (d : Data) (m : String) :
    (chartData categories d m).length = categories.length ∧
    (∀ (i : Nat) (cat : String), categories[i]? = some cat →
      (chartData categories d m)[i]? = some
        ({ name := cat
           value := (((monthExpenses d m).filter (fun e => e.category = cat)).map
             Expense.amount).sum } : Bucket)) ∧
    (∀ (i : Nat) (cat : String), categories[i]? = some cat →
      (monthExpenses d m).filter (fun e => e.category = cat) = [] →
      (chartData categories d m)[i]? = some ({ name := cat, value := 0 } : Bucket)) := by
  refine ⟨by simp [chartData], ?_, ?_⟩
  · intro i cat h
    simp [chartData, h, foldl_amount]
  · intro i cat h hempty
    simp [chartData, h, hempty, foldl_amount]

/-- Witness for C4 at the spec's example: categories ["Food","Travel"],
one Food expense of 100, gives buckets [("Food",100), ("Travel",0)]. -/
theorem chart_buckets_witness :
    (chartData ["Food", "Travel"] [("2025-01", ⟨0, [⟨1, "a", 100, "Food"⟩]⟩)]
        "2025-01").length = 2 ∧
    (chartData ["Food", "Travel"] [("2025-01", ⟨0, [⟨1, "a", 100, "Food"⟩]⟩)]
        "2025-01")[0]? = some { name := "Food", value := 100 } ∧
    (chartData ["Food", "Travel"] [("2025-01", ⟨0, [⟨1, "a", 100, "Food"⟩]⟩)]
        "2025-01")[1]? = some { name := "Travel", value := 0 } := by
  have h := chart_buckets ["Food", "Travel"]
    [("2025-01", ⟨0, [⟨1, "a", 100, "Food"⟩]⟩)] "2025-01"
  refine ⟨h.1, ?_, ?_⟩
  · rw [h.2.1 0 "Food" (by decide)]
    decide
  · rw [h.2.2 1 "Travel" (by decide) (by decide)]

/-! ### C3: the category-delete guard -/

/-- C3. Deleting a category is rejected exactly when some expense of some
month references it; a rejection leaves the CategoryList and the edit
target unchanged (the handler never writes the Dataset at all), and an
accepted deletion removes the name from the CategoryList and clears the
edit target when it was the deleted name. -/
theorem delete_category_guard (categories : List String) (d : Data)
    (editing : Option String) (cat : String) :
    ((handleDeleteCategory categories d editing cat).rejected = true ↔
      ∃ p ∈ d, ∃ e ∈ p.2.expenses, e.category = cat) ∧
    ((handleDeleteCategory categories d editing cat).rejected = true →
      (handleDeleteCategory categories d editing cat).categories = categories ∧
      (handleDeleteCategory categories d editing cat).editingCategory = editing) ∧
    ((¬ ∃ p ∈ d, ∃ e ∈ p.2.expenses, e.category = cat) →
      cat ∉ (handleDeleteCategory categories d editing cat).categories ∧
      (handleDeleteCategory categories d editing cat).categories =
        categories.filter (fun c => c ≠ cat) ∧
      (handleDeleteCategory categories d editing cat).editingCategory =
        (if editing = some cat then none else editing)) := by
  have hused : categoryUsed d cat = true ↔ ∃ p ∈ d, ∃ e ∈ p.2.expenses, e.category = cat := by
    simp [categoryUsed, List.any_eq_true]
  by_cases hu : categoryUsed d cat
  · refine ⟨by simp [handleDeleteCategory, hu, hused.mp hu], ?_, ?_⟩
    · intro _
      simp [handleDeleteCategory, hu]
    · intro hnone
      exact absurd (hused.mp hu) hnone
  · have hu' : categoryUsed d cat = false := by simpa using hu
    refine ⟨?_, ?_, ?_⟩
    · simp only [handleDeleteCategory, hu', Bool.false_eq_true, if_false]
      constructor
      · intro h
        exact absurd h (by simp)
      · intro h
        exact absurd h (by rw [← hused, hu']; simp)
    · intro h
      rw [handleDeleteCategory, if_neg (by simp [hu'])] at h
      exact absurd h (by simp)
    · intro _
      refine ⟨?_, ?_, ?_⟩
      · simp [handleDeleteCategory, hu', List.mem_filter]
      · simp [handleDeleteCategory, hu']
      · simp [handleDeleteCategory, hu']

/-- Witness for C3: deleting "Food" (referenced by an expense) is rejected
with the list unchanged; deleting "Travel" (unreferenced) removes it and
clears the matching edit target. -/
theorem delete_category_guard_witness :
    (handleDeleteCategory ["Food", "Travel"] [("2025-01", ⟨0, [⟨1, "a", 2, "Food"⟩]⟩)]
        (some "Travel") "Food").rejected = true ∧
    (handleDeleteCategory ["Food", "Travel"] [("2025-01", ⟨0, [⟨1, "a", 2, "Food"⟩]⟩)]
        (some "Travel") "Food").categories = ["Food", "Travel"] ∧
    (handleDeleteCategory ["Food", "Travel"] [("2025-01", ⟨0, [⟨1, "a", 2, "Food"⟩]⟩)]
        (some "Travel") "Travel").categories = ["Food"] ∧
    (handleDeleteCategory ["Food", "Travel"] [("2025-01", ⟨0, [⟨1, "a", 2, "Food"⟩]⟩)]
        (some "Travel") "Travel").editingCategory = none := by
  have h1 := delete_category_guard ["Food", "Travel"]
    [("2025-01", ⟨0, [⟨1, "a", 2, "Food"⟩]⟩)] (some "Travel") "Food"
  have h2 := delete_category_guard ["Food", "Travel"]
    [("2025-01", ⟨0, [⟨1, "a", 2, "Food"⟩]⟩)] (some "Travel") "Travel"
  have hrej : (handleDeleteCategory ["Food", "Travel"]
      [("2025-01", ⟨0, [⟨1, "a", 2, "Food"⟩]⟩)] (some "Travel") "Food").rejected = true :=
    h1.1.mpr ⟨("2025-01", ⟨0, [⟨1, "a", 2, "Food"⟩]⟩), by decide, ⟨1, "a", 2, "Food"⟩,
      by decide, rfl⟩
  have hok := h2.2.2 (by decide)
  refine ⟨hrej, (h1.2.1 hrej).1, ?_, ?_⟩
  · rw [hok.2.1]
    decide
  · rw [hok.2.2]
    decide

/-! ### C7: CategoryList never acquires duplicates -/

theorem nodup_renameCats (l : List String) (old v : String)
    (h : l.Nodup) (hv : v ∉ l) : (renameCats l old v).Nodup := by
  induction l with
  | nil => simp [renameCats]
  | cons c cs ih =>
    rw [List.nodup_cons] at h
    have hvc : v ≠ c := fun hh => hv (by simp [hh])
    have hvcs : v ∉ cs := fun hm => hv (List.mem_cons_of_mem _ hm)
    have htail := ih h.2 hvcs
    simp only [renameCats, List.map_cons, List.nodup_cons] at htail ⊢
    refine ⟨?_, htail⟩
    intro hmem
    rw [List.mem_map] at hmem
    obtain ⟨x, hx, hxeq⟩ := hmem
    by_cases hc : c = old
    · rw [if_pos hc] at hxeq
      by_cases hx' : x = old
      · rw [if_pos hx'] at hxeq
        have hxc : x = c := hx'.trans hc.symm
        exact h.1 (hxc ▸ hx)
      · rw [if_neg hx'] at hxeq
        exact hvcs (hxeq ▸ hx)
    · rw [if_neg hc] at hxeq
      by_cases hx' : x = old
      · rw [if_pos hx'] at hxeq
        exact hvc hxeq
      · rw [if_neg hx'] at hxeq
        exact h.1 (hxeq ▸ hx)

theorem renameCats_self (l : List String) (old : String) :
    renameCats l old old = l := by
  induction l with
  | nil => rfl
  | cons c cs ih =>
    simp only [renameCats, List.map_cons] at ih ⊢
    rw [ih]
    by_cases hc : c = old
    · rw [if_pos hc, hc]
    · rw [if_neg hc]

/-- C7. Starting from a duplicate-free CategoryList, each of the three
category operations — add, rename, delete — returns a duplicate-free
CategoryList. -/
theorem categories_nodup (categories : List String) (d : Data)
    (addInput renInput : String) (editing : Option String) (delCat : String)
    (h : categories.Nodup) :
    (handleAddCategory categories addInput).Nodup ∧
    (handleSaveEditedCategory categories d renInput editing).1.Nodup ∧
    (handleDeleteCategory categories d editing delCat).categories.Nodup := by
  refine ⟨?_, ?_, ?_⟩
  · simp only [handleAddCategory]
    split
    · exact h
    · split
      · exact h
      · next hne hmem => simp [List.nodup_append, h, hmem]
  · simp only [handleSaveEditedCategory]
    split
    · exact h
    · next hguard =>
      split
      · exact h
      · next hconf =>
        by_cases hv : jsTrim renInput = (editing.getD "")
        · rw [hv, renameCats_self]
          exact h
        · refine nodup_renameCats _ _ _ h ?_
          intro hmem
          exact hconf ⟨hmem, hv⟩
  · simp only [handleDeleteCategory]
    split
    · exact h
    · exact h.filter _

/-- Witness for C7: the default CategoryList is duplicate-free and stays so
under an add, a rename and a delete. -/
theorem categories_nodup_witness :
    (["Food", "Travel", "Shopping", "Bills"] : List String).Nodup ∧
    (handleAddCategory ["Food", "Travel", "Shopping", "Bills"] "Rent").Nodup ∧
    (handleSaveEditedCategory ["Food", "Travel", "Shopping", "Bills"] []
      "Groceries" (some "Food")).1.Nodup ∧
    (handleDeleteCategory ["Food", "Travel", "Shopping", "Bills"] []
      none "Bills").categories.Nodup := by
  have h := categories_nodup ["Food", "Travel", "Shopping", "Bills"] []
    "Rent" "Groceries" (some "Food") "Bills" (by decide)
  have h' := categories_nodup ["Food", "Travel", "Shopping", "Bills"] []
    "Groceries" "Groceries" (some "Food") "Bills" (by decide)
  exact ⟨by decide, h.1, h'.2.1, h.2.2⟩

/-! ### C2: category rename (corrected: the edit target must be non-empty) -/

/-- Counterexample to C2 as stated: take CategoryList `[""]`, an empty
dataset, oldName `""` and newName `"X"`. The claim's validity condition
holds — `"X"` trims to a non-empty name that is not present under a
different identity — so the claim demands that `""` be replaced by `"X"`
at its position; but the handler treats the empty edit target as inactive
(JS falsiness of `""` in `!editingCategory`) and returns the CategoryList
unchanged. -/
theorem rename_category_counterexample :
    jsTrim "X" ≠ "" ∧ ("X" : String) ∉ ([""] : List String) ∧
    (handleSaveEditedCategory [""] [] "X" (some "")).1 = [""] ∧
    (([""] : List String) ≠ ["X"]) := by decide

/-- C2 (amended): provided oldName is non-empty — an empty edit target is
treated as no active edit and the handler no-ops — every valid rename
(trimmed newName non-empty and not present under a different identity
than oldName) replaces oldName by the trimmed newName at each CategoryList
position where it occurs, leaves every other entry unchanged, and rewrites
exactly the `category` field of every matching expense of every month,
preserving every other expense field, every position, and every month. -/
theorem rename_category_cascades (categories : List String) (d : Data)
    (input old : String) (hold : old ≠ "") (hv : jsTrim input ≠ "")
    (hfree : jsTrim input ∉ categories ∨ jsTrim input = old) :
    (∀ (i : Nat),
      ((handleSaveEditedCategory categories d input (some old)).1)[i]? =
        (categories[i]?).map (fun c => if c = old then jsTrim input else c)) ∧
    ((handleSaveEditedCategory categories d input (some old)).2).length = d.length ∧
    (∀ (i : Nat),
      ((handleSaveEditedCategory categories d input (some old)).2)[i]? =
        (d[i]?).map (fun p => (p.1,
          ({ income := p.2.income
             expenses := p.2.expenses.map (fun ex =>
               if ex.category = old then
                 { id := ex.id, title := ex.title, amount := ex.amount,
                   category := jsTrim input }
               else ex) } : MonthData)))) := by
  have htr : truthyCat (some old) = true := by simp [truthyCat, hold]
  have hg1 : ¬ (jsTrim input = "" ∨ truthyCat (some old) = false) := by
    simp [hv, htr]
  have hstep : handleSaveEditedCategory categories d input (some old) =
      (renameCats categories old (jsTrim input), renameData d old (jsTrim input)) := by
    simp only [handleSaveEditedCategory, if_neg hg1, Option.getD_some]
    split
    · next hcon =>
      exfalso
      rcases hfree with hf | hf
      · exact hf hcon.1
      · exact hcon.2 hf
    · rfl
  rw [hstep]
  refine ⟨?_, ?_, ?_⟩
  · intro i
    simp [renameCats]
  · simp [renameData]
  · intro i
    simp only [renameData, List.getElem?_map]

/-- The spec's rename example: Food expenses in two different months and
one non-Food expense. -/
def renameExampleData : Data :=
  [("2025-01", ⟨10, [⟨1, "lunch", 12, "Food"⟩, ⟨2, "bus", 3, "Travel"⟩]⟩),
   ("2025-02", ⟨20, [⟨3, "dinner", 30, "Food"⟩]⟩)]

/-- Witness for C2 (amended): renaming "Food" to "Groceries" updates the
CategoryList entry and the matching expenses of both months, leaving the
other category and the Travel expense untouched. -/
theorem rename_category_cascades_witness :
    ((handleSaveEditedCategory ["Food", "Travel"] renameExampleData
      "Groceries" (some "Food")).1)[0]? = some "Groceries" ∧
    ((handleSaveEditedCategory ["Food", "Travel"] renameExampleData
      "Groceries" (some "Food")).1)[1]? = some "Travel" ∧
    ((handleSaveEditedCategory ["Food", "Travel"] renameExampleData
      "Groceries" (some "Food")).2)[0]? =
      some ("2025-01", ⟨10, [⟨1, "lunch", 12, "Groceries"⟩, ⟨2, "bus", 3, "Travel"⟩]⟩) ∧
    ((handleSaveEditedCategory ["Food", "Travel"] renameExampleData
      "Groceries" (some "Food")).2)[1]? =
      some ("2025-02", ⟨20, [⟨3, "dinner", 30, "Groceries"⟩]⟩) := by
  have h := rename_category_cascades ["Food", "Travel"] renameExampleData
    "Groceries" "Food" (by decide) (by decide) (Or.inl (by decide))
  refine ⟨?_, ?_, ?_, ?_⟩
  · rw [h.1 0]
    decide
  · rw [h.1 1]
    decide
  · rw [h.2.2 0]
    decide
  · rw [h.2.2 1]
    decide

/-! ### C8: in-place expense edit -/

theorem monthExpenses_setMonth (d : Data) (m : String) (v : MonthData) :
    monthExpenses (setMonth d m v) m = v.expenses := by
  simp [monthExpenses, getMonth_setMonth_self]

theorem monthExpenses_getD (d : Data) (m : String) :
    ((getMonth d m).getD defaultMonth).expenses = monthExpenses d m := by
  cases h : getMonth d m <;> simp [monthExpenses, h, defaultMonth]

/-- C8. With an active edit target (a non-null, non-zero id, per JS
truthiness), submitting the form rewrites exactly the expenses of the
selected month whose id equals the target id — replacing title, amount
and category while keeping the id and the list position — leaves every
other expense of that month unchanged, and leaves every other month's
record unchanged. -/
theorem edit_expense_in_place (d : Data) (m : String)
    (expTitle expAmount expCategory : String) (eid now : Int)
    (ht : expTitle ≠ "") (ha : expAmount ≠ "") (hc : expCategory ≠ "")
    (hid : eid ≠ 0) :
    (monthExpenses (handleAddOrUpdateExpense d m expTitle expAmount expCategory
      (some eid) now) m).length = (monthExpenses d m).length ∧
    (∀ (i : Nat),
      (monthExpenses (handleAddOrUpdateExpense d m expTitle expAmount expCategory
        (some eid) now) m)[i]? =
      ((monthExpenses d m)[i]?).map (fun e =>
        if e.id = eid then
          ({ id := e.id, title := expTitle, amount := jsNumber expAmount,
             category := expCategory } : Expense)
        else e)) ∧
    (∀ m', m' ≠ m →
      getMonth (handleAddOrUpdateExpense d m expTitle expAmount expCategory
        (some eid) now) m' = getMonth d m') := by
  have hguard : ¬ (expTitle = "" ∨ expAmount = "" ∨ expCategory = "") := by
    simp [ht, ha, hc]
  have htr : truthyId (some eid) = true := by simp [truthyId, hid]
  have hstep : handleAddOrUpdateExpense d m expTitle expAmount expCategory
      (some eid) now =
      setMonth d m
        { income := ((getMonth d m).getD defaultMonth).income
          expenses := ((getMonth d m).getD defaultMonth).expenses.map (fun e =>
            if e.id = eid then
              ({ id := e.id, title := expTitle, amount := jsNumber expAmount,
                 category := expCategory } : Expense)
            else e) } := by
    simp only [handleAddOrUpdateExpense, if_neg hguard, htr, if_true, Option.getD_some]
  rw [hstep]
  refine ⟨?_, ?_, ?_⟩
  · rw [monthExpenses_setMonth]
    simp [monthExpenses_getD]
  · intro i
    rw [monthExpenses_setMonth]
    simp only [List.getElem?_map]
    rw [monthExpenses_getD]
  · intro m' hm'
    exact getMonth_setMonth_other _ _ _ _ hm'

/-- Witness for C8: editing the expense with id 7 of a two-expense month
replaces its fields in place, keeps the expense with id 5 untouched, and
keeps the month length. -/
theorem edit_expense_in_place_witness :
    (monthExpenses (handleAddOrUpdateExpense
      [("2025-01", ⟨0, [⟨5, "a", 1, "Food"⟩, ⟨7, "b", 2, "Food"⟩]⟩)]
      "2025-01" "taxi" "30" "Travel" (some 7) 99) "2025-01").length = 2 ∧
    (monthExpenses (handleAddOrUpdateExpense
      [("2025-01", ⟨0, [⟨5, "a", 1, "Food"⟩, ⟨7, "b", 2, "Food"⟩]⟩)]
      "2025-01" "taxi" "30" "Travel" (some 7) 99) "2025-01")[0]? =
      some ⟨5, "a", 1, "Food"⟩ ∧
    (monthExpenses (handleAddOrUpdateExpense
      [("2025-01", ⟨0, [⟨5, "a", 1, "Food"⟩, ⟨7, "b", 2, "Food"⟩]⟩)]
      "2025-01" "taxi" "30" "Travel" (some 7) 99) "2025-01")[1]? =
      some ⟨7, "taxi", 30, "Travel"⟩ := by
  have h := edit_expense_in_place
    [("2025-01", ⟨0, [⟨5, "a", 1, "Food"⟩, ⟨7, "b", 2, "Food"⟩]⟩)]
    "2025-01" "taxi" "30" "Travel" 7 99
    (by decide) (by decide) (by decide) (by decide)
  refine ⟨?_, ?_, ?_⟩
  · rw [h.1]
    decide
  · rw [h.2.1 0]
    decide
  · rw [h.2.1 1]
    decide

/-! ### C6: the persisted JSON encoding and its round trip

`JSON.stringify` and `JSON.parse` are platform primitives absent from the
repository. Modelled from the spec: the persisted blobs are whole-structure
JSON text encodings — an object from month-key strings to
`{income, expenses:[{id,title,amount,category}, ...]}` for the Dataset and
an array of strings for the CategoryList. The printer and the
recursive-descent parser below cover exactly the JSON fragment the
application writes: integers, strings with `"` and `\` escaped, arrays,
and objects, with no interior whitespace. -/

inductive Json where
  | num : Int → Json
  | str : String → Json
  | arr : List Json → Json
  | obj : List (String × Json) → Json

def quoteChar : Char := Char.ofNat 34

def backslashChar : Char := Char.ofNat 92

def lbraceChar : Char := Char.ofNat 123

def rbraceChar : Char := Char.ofNat 125

def digitChar : Nat → Char
  | 0 => '0'
  | 1 => '1'
  | 2 => '2'
  | 3 => '3'
  | 4 => '4'
  | 5 => '5'
  | 6 => '6'
  | 7 => '7'
  | 8 => '8'
  | _ => '9'

/-- Decimal digits of `n`, most significant first. -/
def natDigits (n : Nat) : List Char :=
  if _h : n < 10 then [digitChar n]
  else natDigits (n / 10) ++ [digitChar (n % 10)]
termination_by n
decreasing_by exact Nat.div_lt_self (by omega) (by omega)

/-- Decimal rendering of a JSON integer. -/
def printInt (n : Int) : List Char :=
  if n < 0 then '-' :: natDigits n.natAbs else natDigits n.natAbs

/-- Consume a maximal run of digits, accumulating their value. -/
def parseDigitsAux : List Char → Nat → Nat × List Char
  | [], acc => (acc, [])
  | c :: cs, acc =>
    if c.isDigit then parseDigitsAux cs (acc * 10 + (c.toNat - 48)) else (acc, c :: cs)

/-- Parse a non-empty digit run. -/
def parseNat : List Char → Option (Nat × List Char)
  | [] => none
  | c :: cs => if c.isDigit then some (parseDigitsAux cs (c.toNat - 48)) else none

/-- Parse an optionally negated digit run. -/
def parseIntChars : List Char → Option (Int × List Char)
  | [] => none
  | c :: cs =>
    if c = '-' then
      match parseNat cs with
      | some (n, rest) => some (-(n : Int), rest)
      | none => none
    else
      match parseNat (c :: cs) with
      | some (n, rest) => some ((n : Int), rest)
      | none => none

/-- The greedy digit run stops exactly here. -/
def nonDigitStart : List Char → Bool
  | [] => true
  | c :: _ => !c.isDigit

/-- The digit-run value accumulated on top of `acc`. -/
def valDigits (acc : Nat) (ds : List Char) : Nat :=
  ds.foldl (fun a c => a * 10 + (c.toNat - 48)) acc

theorem digitChar_isDigit (d : Nat) (h : d < 10) : (digitChar d).isDigit = true := by
  interval_cases d <;> decide

theorem digitChar_toNat (d : Nat) (h : d < 10) : (digitChar d).toNat - 48 = d := by
  interval_cases d <;> decide

theorem parseDigitsAux_append (ds : List Char) (hds : ∀ c ∈ ds, c.isDigit = true) :
    ∀ rest acc, parseDigitsAux (ds ++ rest) acc = parseDigitsAux rest (valDigits acc ds) := by
  induction ds with
  | nil =>
    intro rest acc
    simp [valDigits]
  | cons c cs ih =>
    intro rest acc
    have hc : c.isDigit = true := hds c (by simp)
    have hcs : ∀ x ∈ cs, x.isDigit = true := fun x hx => hds x (by simp [hx])
    simp only [List.cons_append, parseDigitsAux, hc, if_true]
    show parseDigitsAux (cs ++ rest) (acc * 10 + (c.toNat - 48)) =
      parseDigitsAux rest (valDigits acc (c :: cs))
    rw [ih hcs]
    simp [valDigits]

theorem parseDigitsAux_stop (l : List Char) (acc : Nat) (h : nonDigitStart l = true) :
    parseDigitsAux l acc = (acc, l) := by
  cases l with
  | nil => rfl
  | cons c cs =>
    simp only [nonDigitStart, Bool.not_eq_true'] at h
    simp [parseDigitsAux, h]

theorem natDigits_digits (n : Nat) : ∀ c ∈ natDigits n, c.isDigit = true := by
  induction n using Nat.strong_induction_on with
  | _ n ih =>
    rw [natDigits]
    split
    · next h =>
      intro c hc
      simp only [List.mem_singleton] at hc
      subst hc
      exact digitChar_isDigit n h
    · next h =>
      intro c hc
      rw [List.mem_append] at hc
      rcases hc with hc | hc
      · exact ih (n / 10) (Nat.div_lt_self (by omega) (by omega)) c hc
      · simp only [List.mem_singleton] at hc
        subst hc
        exact digitChar_isDigit (n % 10) (Nat.mod_lt _ (by omega))

theorem natDigits_ne_nil (n : Nat) : natDigits n ≠ [] := by
  rw [natDigits]
  split
  · simp
  · simp

/-- The digit run of `n` is worth `n` on top of any accumulator scaled by a
positive power of ten. -/
theorem valDigits_natDigits (n : Nat) :
    ∃ P : Nat, 0 < P ∧ ∀ acc, valDigits acc (natDigits n) = acc * P + n := by
  induction n using Nat.strong_induction_on with
  | _ n ih =>
    rw [natDigits]
    split
    · next h =>
      refine ⟨10, by omega, fun acc => ?_⟩
      simp only [valDigits, List.foldl_cons, List.foldl_nil]
      rw [digitChar_toNat n h]
    · next h =>
      obtain ⟨P, hP, hval⟩ := ih (n / 10) (Nat.div_lt_self (by omega) (by omega))
      refine ⟨P * 10, by positivity, fun acc => ?_⟩
      simp only [valDigits, List.foldl_append, List.foldl_cons, List.foldl_nil]
      have h1 : List.foldl (fun a c => a * 10 + (c.toNat - 48)) acc (natDigits (n / 10)) =
          acc * P + n / 10 := hval acc
      rw [h1, digitChar_toNat (n % 10) (Nat.mod_lt _ (by omega)), ← Nat.mul_assoc]
      generalize acc * P = Q
      omega

theorem parseNat_natDigits (n : Nat) (rest : List Char) (h : nonDigitStart rest = true) :
    parseNat (natDigits n ++ rest) = some (n, rest) := by
  obtain ⟨c, cs, heq⟩ := List.exists_cons_of_ne_nil (natDigits_ne_nil n)
  have hall := natDigits_digits n
  rw [heq] at hall
  have hc : c.isDigit = true := hall c (by simp)
  have hcs : ∀ x ∈ cs, x.isDigit = true := fun x hx => hall x (by simp [hx])
  rw [heq]
  simp only [List.cons_append, parseNat, hc, if_true]
  rw [parseDigitsAux_append cs hcs rest (c.toNat - 48), parseDigitsAux_stop rest _ h]
  have hv : valDigits (c.toNat - 48) cs = n := by
    obtain ⟨P, hP, hval⟩ := valDigits_natDigits n
    have := hval 0
    rw [heq] at this
    simpa [valDigits] using this
  rw [hv]

theorem isDigit_ne_minus (c : Char) (h : c.isDigit = true) : ¬ (c = '-') := by
  intro hh
  subst hh
  exact absurd h (by decide)

theorem parseIntChars_printInt (n : Int) (rest : List Char)
    (h : nonDigitStart rest = true) :
    parseIntChars (printInt n ++ rest) = some (n, rest) := by
  by_cases hn : n < 0
  · rw [printInt, if_pos hn]
    simp only [List.cons_append, parseIntChars, if_true]
    rw [parseNat_natDigits n.natAbs rest h]
    show some (-((n.natAbs : Nat) : Int), rest) = some (n, rest)
    rw [show -((n.natAbs : Nat) : Int) = n by omega]
  · rw [printInt, if_neg hn]
    obtain ⟨c, cs, heq⟩ := List.exists_cons_of_ne_nil (natDigits_ne_nil n.natAbs)
    have hc : c.isDigit = true := by
      have hall := natDigits_digits n.natAbs
      rw [heq] at hall
      exact hall c (by simp)
    rw [heq]
    simp only [List.cons_append, parseIntChars]
    rw [if_neg (isDigit_ne_minus c hc), ← List.cons_append, ← heq,
      parseNat_natDigits n.natAbs rest h]
    show some (((n.natAbs : Nat) : Int), rest) = some (n, rest)
    rw [show ((n.natAbs : Nat) : Int) = n by omega]

/-- One escaped character of a JSON string body. -/
def escChar (c : Char) : List Char :=
  if c = quoteChar ∨ c = backslashChar then [backslashChar, c] else [c]

/-- A JSON string literal: quote, escaped body, quote. -/
def printStr (s : String) : List Char :=
  quoteChar :: (s.data.flatMap escChar ++ [quoteChar])

/-- Prepend a character to the content of a string-body parse. -/
def consFst (c : Char) : Option (List Char × List Char) → Option (List Char × List Char)
  | some (content, rest) => some (c :: content, rest)
  | none => none

/-- Read a string body up to the unescaped closing quote; a backslash takes
the next character verbatim. -/
def parseStrBody : List Char → Option (List Char × List Char)
  | [] => none
  | c :: cs =>
    if c = quoteChar then some ([], cs)
    else if c = backslashChar then
      match cs with
      | [] => none
      | d :: ds => consFst d (parseStrBody ds)
    else consFst c (parseStrBody cs)

theorem parseStrBody_cons (c : Char) (cs : List Char) :
    parseStrBody (c :: cs) =
      if c = quoteChar then some ([], cs)
      else if c = backslashChar then
        match cs with
        | [] => none
        | d :: ds => consFst d (parseStrBody ds)
      else consFst c (parseStrBody cs) := by
  rw [parseStrBody.eq_def]

theorem parseStrBody_escaped (cs : List Char) :
    ∀ rest, parseStrBody (cs.flatMap escChar ++ (quoteChar :: rest)) = some (cs, rest) := by
  induction cs with
  | nil =>
    intro rest
    simp only [List.flatMap_nil, List.nil_append]
    rw [parseStrBody_cons, if_pos rfl]
  | cons c cs ih =>
    intro rest
    rw [List.flatMap_cons, List.append_assoc]
    by_cases hc : c = quoteChar ∨ c = backslashChar
    · rw [escChar, if_pos hc]
      show parseStrBody (backslashChar :: c :: (cs.flatMap escChar ++ quoteChar :: rest)) =
        some (c :: cs, rest)
      rw [parseStrBody_cons, if_neg (by decide), if_pos rfl]
      show consFst c (parseStrBody (cs.flatMap escChar ++ quoteChar :: rest)) =
        some (c :: cs, rest)
      rw [ih rest, consFst]
    · push_neg at hc
      rw [escChar, if_neg (by tauto)]
      show parseStrBody (c :: (cs.flatMap escChar ++ quoteChar :: rest)) =
        some (c :: cs, rest)
      rw [parseStrBody_cons, if_neg hc.1, if_neg hc.2, ih rest, consFst]

mutual

/-- Render a JSON value compactly, the `JSON.stringify` shape. -/
def printJson : Json → List Char
  | Json.num n => printInt n
  | Json.str s => printStr s
  | Json.arr [] => ['[', ']']
  | Json.arr (x :: xs) => '[' :: printArrItems x xs
  | Json.obj [] => [lbraceChar, rbraceChar]
  | Json.obj (kv :: kvs) => lbraceChar :: printObjItems kv kvs
termination_by j => sizeOf j

/-- Render a non-empty run of array items with separators and the closing
bracket. -/
def printArrItems : Json → List Json → List Char
  | x, [] => printJson x ++ [']']
  | x, y :: ys => printJson x ++ (',' :: printArrItems y ys)
termination_by x xs => sizeOf x + sizeOf xs

/-- Render a non-empty run of object members with separators and the
closing brace. -/
def printObjItems : String × Json → List (String × Json) → List Char
  | (k, v), [] => printStr k ++ (':' :: (printJson v ++ [rbraceChar]))
  | (k, v), kv :: kvs =>
    printStr k ++ (':' :: (printJson v ++ (',' :: printObjItems kv kvs)))
termination_by kv kvs => sizeOf kv + sizeOf kvs

end

theorem printJson_num (n : Int) : printJson (Json.num n) = printInt n := by
  rw [printJson.eq_def]

theorem printJson_str (s : String) : printJson (Json.str s) = printStr s := by
  rw [printJson.eq_def]

theorem printJson_arr_nil : printJson (Json.arr []) = ['[', ']'] := by
  rw [printJson.eq_def]

theorem printJson_arr_cons (x : Json) (xs : List Json) :
    printJson (Json.arr (x :: xs)) = '[' :: printArrItems x xs := by
  rw [printJson.eq_def]

theorem printJson_obj_nil : printJson (Json.obj []) = [lbraceChar, rbraceChar] := by
  rw [printJson.eq_def]

theorem printJson_obj_cons (kv : String × Json) (kvs : List (String × Json)) :
    printJson (Json.obj (kv :: kvs)) = lbraceChar :: printObjItems kv kvs := by
  rw [printJson.eq_def]

theorem printArrItems_single (x : Json) : printArrItems x [] = printJson x ++ [']'] := by
  rw [printArrItems.eq_def]

theorem printArrItems_cons (x y : Json) (ys : List Json) :
    printArrItems x (y :: ys) = printJson x ++ (',' :: printArrItems y ys) := by
  rw [printArrItems.eq_def]

theorem printObjItems_single (k : String) (v : Json) :
    printObjItems (k, v) [] = printStr k ++ (':' :: (printJson v ++ [rbraceChar])) := by
  rw [printObjItems.eq_def]

theorem printObjItems_cons (k : String) (v : Json) (kv : String × Json)
    (kvs : List (String × Json)) :
    printObjItems (k, v) (kv :: kvs) =
      printStr k ++ (':' :: (printJson v ++ (',' :: printObjItems kv kvs))) := by
  rw [printObjItems.eq_def]

theorem isDigit_ne (c : Char) (h : c.isDigit = true) :
    ¬ (c = quoteChar) ∧ ¬ (c = '[') ∧ ¬ (c = lbraceChar) ∧
    ¬ (c = ']') ∧ ¬ (c = rbraceChar) := by
  refine ⟨?_, ?_, ?_, ?_, ?_⟩ <;> (intro hh; subst hh; exact absurd h (by decide))

/-- Every rendered value starts with a character that closes neither an
array nor an object. -/
theorem printJson_head (j : Json) :
    ∃ c t, printJson j = c :: t ∧ ¬ (c = ']') ∧ ¬ (c = rbraceChar) := by
  cases j with
  | num n =>
    rw [printJson_num]
    by_cases hn : n < 0
    · exact ⟨'-', _, by rw [printInt, if_pos hn], by decide, by decide⟩
    · obtain ⟨c, cs, heq⟩ := List.exists_cons_of_ne_nil (natDigits_ne_nil n.natAbs)
      have hc : c.isDigit = true := by
        have hall := natDigits_digits n.natAbs
        rw [heq] at hall
        exact hall c (by simp)
      exact ⟨c, cs, by rw [printInt, if_neg hn, heq], (isDigit_ne c hc).2.2.2.1,
        (isDigit_ne c hc).2.2.2.2⟩
  | str s =>
    rw [printJson_str]
    exact ⟨quoteChar, _, rfl, by decide, by decide⟩
  | arr xs =>
    cases xs with
    | nil => exact ⟨'[', [']'], printJson_arr_nil, by decide, by decide⟩
    | cons x xs => exact ⟨'[', _, printJson_arr_cons x xs, by decide, by decide⟩
  | obj kvs =>
    cases kvs with
    | nil => exact ⟨lbraceChar, [rbraceChar], printJson_obj_nil, by decide, by decide⟩
    | cons kv kvs => exact ⟨lbraceChar, _, printJson_obj_cons kv kvs, by decide, by decide⟩

theorem printJson_length_pos (j : Json) : 1 ≤ (printJson j).length := by
  obtain ⟨c, t, heq, -, -⟩ := printJson_head j
  rw [heq]
  simp

/-- Wrap a parsed string body as a JSON value. -/
def strWrap : Option (List Char × List Char) → Option (Json × List Char)
  | some (content, rest) => some (Json.str (String.mk content), rest)
  | none => none

/-- Wrap parsed array items as a JSON value. -/
def arrWrap : Option (List Json × List Char) → Option (Json × List Char)
  | some (items, rest) => some (Json.arr items, rest)
  | none => none

/-- Wrap parsed object members as a JSON value. -/
def objWrap : Option (List (String × Json) × List Char) → Option (Json × List Char)
  | some (members, rest) => some (Json.obj members, rest)
  | none => none

/-- Wrap a parsed integer as a JSON value. -/
def numWrap : Option (Int × List Char) → Option (Json × List Char)
  | some (n, rest) => some (Json.num n, rest)
  | none => none

/-- Prepend a parsed item to the remaining items of an array. -/
def consItem (j : Json) : Option (List Json × List Char) → Option (List Json × List Char)
  | some (items, rest) => some (j :: items, rest)
  | none => none

/-- Prepend a parsed member to the remaining members of an object. -/
def consMember (kv : String × Json) :
    Option (List (String × Json) × List Char) →
    Option (List (String × Json) × List Char)
  | some (members, rest) => some (kv :: members, rest)
  | none => none

/-- After an array item: a comma continues with `pa`, a bracket closes. -/
def arrAfterF (pa : List Char → Option (List Json × List Char)) (j : Json) :
    List Char → Option (List Json × List Char)
  | [] => none
  | c :: cs =>
    if c = ',' then consItem j (pa cs)
    else if c = ']' then some ([j], cs)
    else none

/-- Feed the result of a value parse into the after-item step. -/
def arrStepF (pa : List Char → Option (List Json × List Char)) :
    Option (Json × List Char) → Option (List Json × List Char)
  | none => none
  | some (j, rest) => arrAfterF pa j rest

/-- After an object member: a comma continues with `po`, a brace closes. -/
def objAfterF (po : List Char → Option (List (String × Json) × List Char))
    (kv : String × Json) :
    List Char → Option (List (String × Json) × List Char)
  | [] => none
  | e :: es =>
    if e = ',' then consMember kv (po es)
    else if e = rbraceChar then some ([kv], es)
    else none

/-- Feed the result of the member-value parse into the after-member step. -/
def objValueF (po : List Char → Option (List (String × Json) × List Char))
    (key : List Char) :
    Option (Json × List Char) → Option (List (String × Json) × List Char)
  | none => none
  | some (v, rest2) => objAfterF po (String.mk key, v) rest2

/-- After a member key, demand a colon and parse the value with `pj`. -/
def objColonF (pj : List Char → Option (Json × List Char))
    (po : List Char → Option (List (String × Json) × List Char))
    (key : List Char) :
    List Char → Option (List (String × Json) × List Char)
  | [] => none
  | d :: ds => if d = ':' then objValueF po key (pj ds) else none

/-- Feed the result of the key parse into the colon step. -/
def objKeyF (pj : List Char → Option (Json × List Char))
    (po : List Char → Option (List (String × Json) × List Char)) :
    Option (List Char × List Char) → Option (List (String × Json) × List Char)
  | none => none
  | some (key, rest) => objColonF pj po key rest

/-- Parse the members of a non-empty object: each starts with a quoted key. -/
def objItemsF (pj : List Char → Option (Json × List Char))
    (po : List Char → Option (List (String × Json) × List Char)) :
    List Char → Option (List (String × Json) × List Char)
  | [] => none
  | c :: cs => if c = quoteChar then objKeyF pj po (parseStrBody cs) else none

/-- Parse one JSON value, dispatching on the first character. -/
def jsonF (pa : List Char → Option (List Json × List Char))
    (po : List Char → Option (List (String × Json) × List Char)) :
    List Char → Option (Json × List Char)
  | [] => none
  | c :: cs =>
    if c = quoteChar then strWrap (parseStrBody cs)
    else if c = '[' then
      match cs with
      | [] => none
      | d :: ds => if d = ']' then some (Json.arr [], ds) else arrWrap (pa (d :: ds))
    else if c = lbraceChar then
      match cs with
      | [] => none
      | d :: ds => if d = rbraceChar then some (Json.obj [], ds) else objWrap (po (d :: ds))
    else numWrap (parseIntChars (c :: cs))

/-- The fuel-indexed triple of parsers (value, array items, object
members); every recursive use strictly decreases the fuel. -/
def parsers : Nat →
    ((List Char → Option (Json × List Char)) ×
     (List Char → Option (List Json × List Char)) ×
     (List Char → Option (List (String × Json) × List Char)))
  | 0 => (fun _ => none, fun _ => none, fun _ => none)
  | Nat.succ fuel =>
    (jsonF (parsers fuel).2.1 (parsers fuel).2.2,
     fun l => arrStepF (parsers fuel).2.1 ((parsers fuel).1 l),
     objItemsF (parsers fuel).1 (parsers fuel).2.2)

/-- Parse one JSON value with the given fuel. -/
def parseJsonF (fuel : Nat) (l : List Char) : Option (Json × List Char) :=
  (parsers fuel).1 l

/-- Parse non-empty array items with the given fuel. -/
def parseArrItems (fuel : Nat) (l : List Char) : Option (List Json × List Char) :=
  (parsers fuel).2.1 l

/-- Parse non-empty object members with the given fuel. -/
def parseObjItems (fuel : Nat) (l : List Char) :
    Option (List (String × Json) × List Char) :=
  (parsers fuel).2.2 l

theorem lbrack_ne_quote : ¬ (('[' : Char) = quoteChar) := by decide

theorem lbrace_ne_quote : ¬ (lbraceChar = quoteChar) := by decide

theorem lbrace_ne_lbrack : ¬ (lbraceChar = '[') := by decide

theorem parseJsonF_succ (fuel : Nat) (l : List Char) :
    parseJsonF (fuel + 1) l =
      jsonF (parseArrItems fuel) (parseObjItems fuel) l := rfl

theorem parseArrItems_succ (fuel : Nat) (l : List Char) :
    parseArrItems (fuel + 1) l =
      arrStepF (parseArrItems fuel) (parseJsonF fuel l) := rfl

theorem parseObjItems_succ (fuel : Nat) (l : List Char) :
    parseObjItems (fuel + 1) l =
      objItemsF (parseJsonF fuel) (parseObjItems fuel) l := rfl

theorem jsonF_quote (pa : List Char → Option (List Json × List Char))
    (po : List Char → Option (List (String × Json) × List Char)) (cs : List Char) :
    jsonF pa po (quoteChar :: cs) = strWrap (parseStrBody cs) := by
  simp [jsonF]

theorem jsonF_arr_nil (pa : List Char → Option (List Json × List Char))
    (po : List Char → Option (List (String × Json) × List Char)) (rest : List Char) :
    jsonF pa po ('[' :: ']' :: rest) = some (Json.arr [], rest) := by
  simp [jsonF, lbrack_ne_quote]

theorem jsonF_arr_cons (pa : List Char → Option (List Json × List Char))
    (po : List Char → Option (List (String × Json) × List Char))
    (d : Char) (ds : List Char) (hd : ¬ (d = ']')) :
    jsonF pa po ('[' :: d :: ds) = arrWrap (pa (d :: ds)) := by
  simp [jsonF, lbrack_ne_quote, hd]

theorem jsonF_obj_nil (pa : List Char → Option (List Json × List Char))
    (po : List Char → Option (List (String × Json) × List Char)) (rest : List Char) :
    jsonF pa po (lbraceChar :: rbraceChar :: rest) = some (Json.obj [], rest) := by
  simp [jsonF, lbrace_ne_quote, lbrace_ne_lbrack]

theorem jsonF_obj_cons (pa : List Char → Option (List Json × List Char))
    (po : List Char → Option (List (String × Json) × List Char))
    (d : Char) (ds : List Char) (hd : ¬ (d = rbraceChar)) :
    jsonF pa po (lbraceChar :: d :: ds) = objWrap (po (d :: ds)) := by
  simp [jsonF, lbrace_ne_quote, lbrace_ne_lbrack, hd]

theorem jsonF_other (pa : List Char → Option (List Json × List Char))
    (po : List Char → Option (List (String × Json) × List Char))
    (c : Char) (cs : List Char)
    (hq : ¬ (c = quoteChar)) (hlb : ¬ (c = '[')) (hlc : ¬ (c = lbraceChar)) :
    jsonF pa po (c :: cs) = numWrap (parseIntChars (c :: cs)) := by
  simp [jsonF, hq, hlb, hlc]

theorem printArrItems_head (x : Json) (xs : List Json) :
    ∃ c t, printArrItems x xs = c :: t ∧ ¬ (c = ']') ∧ ¬ (c = rbraceChar) := by
  obtain ⟨c0, t0, hx, hc1, hc2⟩ := printJson_head x
  cases xs with
  | nil =>
    refine ⟨c0, t0 ++ [']'], ?_, hc1, hc2⟩
    rw [printArrItems_single, hx]
    rfl
  | cons y ys =>
    refine ⟨c0, t0 ++ (',' :: printArrItems y ys), ?_, hc1, hc2⟩
    rw [printArrItems_cons, hx]
    rfl

theorem printObjItems_head (kv : String × Json) (kvs : List (String × Json)) :
    ∃ t, printObjItems kv kvs = quoteChar :: t := by
  obtain ⟨k, v⟩ := kv
  cases kvs with
  | nil =>
    rw [printObjItems_single, printStr]
    exact ⟨_, rfl⟩
  | cons kv' kvs' =>
    rw [printObjItems_cons, printStr]
    exact ⟨_, rfl⟩

theorem printArrItems_length_pos (x : Json) (xs : List Json) :
    1 ≤ (printArrItems x xs).length := by
  obtain ⟨c, t, heq, -, -⟩ := printArrItems_head x xs
  rw [heq]
  simp

theorem printObjItems_length_pos (kv : String × Json) (kvs : List (String × Json)) :
    1 ≤ (printObjItems kv kvs).length := by
  obtain ⟨t, heq⟩ := printObjItems_head kv kvs
  rw [heq]
  simp

theorem nonDigitStart_cons (c : Char) (l : List Char) (h : c.isDigit = false) :
    nonDigitStart (c :: l) = true := by
  simp [nonDigitStart, h]

/-- The round trip, by induction on fuel: a printed value (or run of array
items, or run of object members) parses back to itself, leaving exactly
the trailing input. -/
theorem parse_print (fuel : Nat) :
    (∀ (j : Json) (rest : List Char), (printJson j).length ≤ fuel →
      nonDigitStart rest = true →
      parseJsonF fuel (printJson j ++ rest) = some (j, rest)) ∧
    (∀ (x : Json) (xs : List Json) (rest : List Char),
      (printArrItems x xs).length ≤ fuel →
      parseArrItems fuel (printArrItems x xs ++ rest) = some (x :: xs, rest)) ∧
    (∀ (kv : String × Json) (kvs : List (String × Json)) (rest : List Char),
      (printObjItems kv kvs).length ≤ fuel →
      parseObjItems fuel (printObjItems kv kvs ++ rest) = some (kv :: kvs, rest)) := by
  induction fuel with
  | zero =>
    refine ⟨?_, ?_, ?_⟩
    · intro j rest hlen _
      exact absurd (le_trans (printJson_length_pos j) hlen) (by omega)
    · intro x xs rest hlen
      exact absurd (le_trans (printArrItems_length_pos x xs) hlen) (by omega)
    · intro kv kvs rest hlen
      exact absurd (le_trans (printObjItems_length_pos kv kvs) hlen) (by omega)
  | succ fuel ih =>
    obtain ⟨ih1, ih2, ih3⟩ := ih
    refine ⟨?_, ?_, ?_⟩
    · intro j rest hlen hnd
      cases j with
      | num n =>
        rw [printJson_num, parseJsonF_succ]
        by_cases hn : n < 0
        · have hpr : printInt n = '-' :: natDigits n.natAbs := by
            rw [printInt, if_pos hn]
          rw [hpr, List.cons_append,
            jsonF_other _ _ '-' _ (by decide) (by decide) (by decide),
            ← List.cons_append, ← hpr, parseIntChars_printInt n rest hnd]
          rfl
        · have hpr : printInt n = natDigits n.natAbs := by
            rw [printInt, if_neg hn]
          obtain ⟨c, cs, heq⟩ := List.exists_cons_of_ne_nil (natDigits_ne_nil n.natAbs)
          have hc : c.isDigit = true := by
            have hall := natDigits_digits n.natAbs
            rw [heq] at hall
            exact hall c (by simp)
          rw [hpr, heq, List.cons_append,
            jsonF_other _ _ c _ (isDigit_ne c hc).1 (isDigit_ne c hc).2.1
              (isDigit_ne c hc).2.2.1,
            ← List.cons_append, ← heq, ← hpr, parseIntChars_printInt n rest hnd]
          rfl
      | str s =>
        rw [printJson_str, parseJsonF_succ]
        have hps : printStr s ++ rest =
            quoteChar :: (s.data.flatMap escChar ++ (quoteChar :: rest)) := by
          rw [printStr]
          simp
        rw [hps, jsonF_quote, parseStrBody_escaped s.data rest]
        rfl
      | arr xs =>
        cases xs with
        | nil =>
          rw [printJson_arr_nil, parseJsonF_succ]
          show jsonF (parseArrItems fuel) (parseObjItems fuel) ('[' :: ']' :: rest) =
            some (Json.arr [], rest)
          exact jsonF_arr_nil _ _ rest
        | cons x xs =>
          rw [printJson_arr_cons] at hlen ⊢
          rw [parseJsonF_succ]
          obtain ⟨c0, t1, hPA, hc1, -⟩ := printArrItems_head x xs
          rw [List.cons_append, hPA, List.cons_append,
            jsonF_arr_cons _ _ c0 _ hc1, ← List.cons_append, ← hPA]
          have hb : (printArrItems x xs).length ≤ fuel := by
            simp at hlen
            omega
          rw [ih2 x xs rest hb]
          rfl
      | obj kvs =>
        cases kvs with
        | nil =>
          rw [printJson_obj_nil, parseJsonF_succ]
          show jsonF (parseArrItems fuel) (parseObjItems fuel)
            (lbraceChar :: rbraceChar :: rest) = some (Json.obj [], rest)
          exact jsonF_obj_nil _ _ rest
        | cons kv kvs =>
          rw [printJson_obj_cons] at hlen ⊢
          rw [parseJsonF_succ]
          obtain ⟨t1, hPO⟩ := printObjItems_head kv kvs
          rw [List.cons_append, hPO, List.cons_append,
            jsonF_obj_cons _ _ quoteChar _ (by decide), ← List.cons_append, ← hPO]
          have hb : (printObjItems kv kvs).length ≤ fuel := by
            simp at hlen
            omega
          rw [ih3 kv kvs rest hb]
          rfl
    · intro x xs rest hlen
      cases xs with
      | nil =>
        rw [printArrItems_single] at hlen ⊢
        rw [parseArrItems_succ, List.append_assoc, List.singleton_append]
        have hb : (printJson x).length ≤ fuel := by
          simp [List.length_append] at hlen
          omega
        rw [ih1 x (']' :: rest) hb (nonDigitStart_cons _ _ (by decide))]
        simp only [arrStepF, arrAfterF]
        rw [if_neg (by decide), if_true]
      | cons y ys =>
        rw [printArrItems_cons] at hlen ⊢
        rw [parseArrItems_succ, List.append_assoc, List.cons_append]
        simp [List.length_append] at hlen
        have hpx := printJson_length_pos x
        have hpy := printArrItems_length_pos y ys
        have hx : (printJson x).length ≤ fuel := by omega
        have hy : (printArrItems y ys).length ≤ fuel := by omega
        rw [ih1 x (',' :: (printArrItems y ys ++ rest)) hx
          (nonDigitStart_cons _ _ (by decide))]
        simp only [arrStepF, arrAfterF]
        rw [if_true, ih2 y ys rest hy]
        rfl
    · intro kv kvs rest hlen
      obtain ⟨k, v⟩ := kv
      cases kvs with
      | nil =>
        rw [printObjItems_single] at hlen ⊢
        rw [parseObjItems_succ]
        have harr : (printStr k ++ (':' :: (printJson v ++ [rbraceChar]))) ++ rest =
            quoteChar :: (k.data.flatMap escChar ++
              (quoteChar :: (':' :: (printJson v ++ (rbraceChar :: rest))))) := by
          rw [printStr]
          simp
        rw [harr]
        simp only [objItemsF]
        rw [if_true, parseStrBody_escaped k.data]
        simp only [objKeyF, objColonF]
        rw [if_true]
        have hv : (printJson v).length ≤ fuel := by
          simp [printStr, List.length_append] at hlen
          omega
        rw [ih1 v (rbraceChar :: rest) hv (nonDigitStart_cons _ _ (by decide))]
        simp only [objValueF, objAfterF]
        rw [if_neg (by decide), if_true]
      | cons kv' kvs' =>
        rw [printObjItems_cons] at hlen ⊢
        rw [parseObjItems_succ]
        have harr : (printStr k ++ (':' :: (printJson v ++
            (',' :: printObjItems kv' kvs')))) ++ rest =
            quoteChar :: (k.data.flatMap escChar ++
              (quoteChar :: (':' :: (printJson v ++
                (',' :: (printObjItems kv' kvs' ++ rest)))))) := by
          rw [printStr]
          simp
        rw [harr]
        simp only [objItemsF]
        rw [if_true, parseStrBody_escaped k.data]
        simp only [objKeyF, objColonF]
        rw [if_true]
        simp [printStr, List.length_append] at hlen
        have hpv := printJson_length_pos v
        have hpo := printObjItems_length_pos kv' kvs'
        have hv : (printJson v).length ≤ fuel := by omega
        have ho : (printObjItems kv' kvs').length ≤ fuel := by omega
        rw [ih1 v (',' :: (printObjItems kv' kvs' ++ rest)) hv
          (nonDigitStart_cons _ _ (by decide))]
        simp only [objValueF, objAfterF]
        rw [if_true, ih3 kv' kvs' rest ho]
        rfl

/-- The persisted shape of one expense:
`{id:number, title:string, amount:number, category:string}`. -/
def expenseToJson (e : Expense) : Json :=
  Json.obj [("id", Json.num e.id), ("title", Json.str e.title),
    ("amount", Json.num e.amount), ("category", Json.str e.category)]

/-- The persisted shape of one month record: `{income, expenses:[...]}`. -/
def monthToJson (md : MonthData) : Json :=
  Json.obj [("income", Json.num md.income),
    ("expenses", Json.arr (md.expenses.map expenseToJson))]

/-- The persisted Dataset: an object from month keys to month records. -/
def dataToJson (d : Data) : Json :=
  Json.obj (d.map (fun p => (p.1, monthToJson p.2)))

/-- The persisted CategoryList: an array of strings. -/
def catsToJson (cs : List String) : Json :=
  Json.arr (cs.map Json.str)

def jsonToExpense : Json → Option Expense
  | Json.obj [(k1, Json.num i), (k2, Json.str t), (k3, Json.num a), (k4, Json.str c)] =>
    if k1 = "id" ∧ k2 = "title" ∧ k3 = "amount" ∧ k4 = "category" then
      some { id := i, title := t, amount := a, category := c }
    else none
  | _ => none

def decodeList {α : Type} (f : Json → Option α) : List Json → Option (List α)
  | [] => some []
  | j :: js =>
    match f j, decodeList f js with
    | some a, some bs => some (a :: bs)
    | _, _ => none

def jsonToMonth : Json → Option MonthData
  | Json.obj [(k1, Json.num inc), (k2, Json.arr exps)] =>
    if k1 = "income" ∧ k2 = "expenses" then
      match decodeList jsonToExpense exps with
      | some es => some { income := inc, expenses := es }
      | none => none
    else none
  | _ => none

def decodeMonths : List (String × Json) → Option Data
  | [] => some []
  | (k, v) :: rest =>
    match jsonToMonth v, decodeMonths rest with
    | some md, some d => some ((k, md) :: d)
    | _, _ => none

def jsonToData : Json → Option Data
  | Json.obj kvs => decodeMonths kvs
  | _ => none

def jsonToCat : Json → Option String
  | Json.str s => some s
  | _ => none

def jsonToCats : Json → Option (List String)
  | Json.arr xs => decodeList jsonToCat xs
  | _ => none

theorem jsonToExpense_round (e : Expense) : jsonToExpense (expenseToJson e) = some e := by
  simp [expenseToJson, jsonToExpense]

theorem decodeList_round {α : Type} (f : Json → Option α) (g : α → Json)
    (hfg : ∀ a, f (g a) = some a) (l : List α) :
    decodeList f (l.map g) = some l := by
  induction l with
  | nil => simp [decodeList]
  | cons a l ih => simp [decodeList, hfg a, ih]

theorem jsonToMonth_round (md : MonthData) : jsonToMonth (monthToJson md) = some md := by
  simp [monthToJson, jsonToMonth,
    decodeList_round jsonToExpense expenseToJson jsonToExpense_round]

theorem decodeMonths_round (d : Data) :
    decodeMonths (d.map (fun p => (p.1, monthToJson p.2))) = some d := by
  induction d with
  | nil => simp [decodeMonths]
  | cons p rest ih =>
    obtain ⟨k, md⟩ := p
    simp [decodeMonths, jsonToMonth_round, ih]

theorem jsonToData_round (d : Data) : jsonToData (dataToJson d) = some d := by
  simp [dataToJson, jsonToData, decodeMonths_round]

theorem jsonToCats_round (cs : List String) : jsonToCats (catsToJson cs) = some cs := by
  simp [catsToJson, jsonToCats, decodeList_round jsonToCat Json.str (fun s => rfl)]

/-- `JSON.parse` of a whole document: the text must be consumed entirely.
The fuel exceeds the input length, which the round-trip theorem shows is
always enough for printed output. -/
def parseJsonString (s : String) : Option Json :=
  match parseJsonF (s.data.length + 1) s.data with
  | some (j, []) => some j
  | _ => none

theorem parseJsonString_print (j : Json) :
    parseJsonString (String.mk (printJson j)) = some j := by
  have h := (parse_print ((printJson j).length + 1)).1 j [] (by omega) rfl
  rw [List.append_nil] at h
  have hdata : (String.mk (printJson j)).data = printJson j := rfl
  simp only [parseJsonString, hdata, h]

/-- `localStorage.setItem(STORAGE_DATA, JSON.stringify(data))` -/
def stringifyData (d : Data) : String := String.mk (printJson (dataToJson d))

/-- `localStorage.setItem(STORAGE_CATS, JSON.stringify(categories))` -/
def stringifyCats (cs : List String) : String := String.mk (printJson (catsToJson cs))

/-- `JSON.parse(saved)` on the Dataset blob, read back as a Dataset. -/
def parseDataString (s : String) : Option Data :=
  match parseJsonString s with
  | some j => jsonToData j
  | none => none

/-- `JSON.parse(saved)` on the CategoryList blob, read back as a list. -/
def parseCatsString (s : String) : Option (List String) :=
  match parseJsonString s with
  | some j => jsonToCats j
  | none => none

/-- C6. Round-trip persistence: serializing any Dataset and any
CategoryList to the persisted text encoding and deserializing reproduces
an equal structure — the same month keys in the same order mapping to
equal records with expense lists in the same order, and the same
categories in the same order. -/
theorem persistence_roundtrip (d : Data) (cs : List String) :
    parseDataString (stringifyData d) = some d ∧
    parseCatsString (stringifyCats cs) = some cs := by
  constructor
  · simp only [stringifyData, parseDataString,
      parseJsonString_print (dataToJson d), jsonToData_round]
  · simp only [stringifyCats, parseCatsString,
      parseJsonString_print (catsToJson cs), jsonToCats_round]

end ExpenseTracker
